import Mathlib

/-!
Verification development for the review-analysis moderation pipeline.

The Python sources under `src/aws/` are shallowly embedded below: strings
become `List Char`, numeric ratings and confidences become `ℚ`, the
DynamoDB user record becomes an explicit `Option UserRecord` state, and
each lambda handler's relevant fragment becomes a pure Lean function.
External collaborators (S3, DynamoDB transport, NLTK, TextBlob) are
modelled as explicit parameters or availability flags.
-/

namespace ReviewAnalysis

/-- Text is modelled as a list of characters (Python `str`). -/
abbrev Str := List Char

/-- Helper turning a Lean string literal into the `Str` model. -/
def str (s : String) : Str := s.data

/-- ASCII whitespace as matched by Python `\s` / `str.split()`
(space, tab, newline, carriage return, vertical tab, form feed). -/
def isPySpace (c : Char) : Bool :=
  c = ' ' || c = '\t' || c = '\n' || c = '\r' || c = '\x0b' || c = '\x0c'

/-- Model of Python `str.lower()` restricted to ASCII letters; after the
regex strip only ASCII letters and whitespace remain, so this is the
behaviour the pipeline exercises. -/
def asciiLower (c : Char) : Char :=
  if 'A' ≤ c && c ≤ 'Z' then Char.ofNat (c.toNat + 32) else c

/-- Characters kept by `re.sub(r'[^a-zA-Z\s]', '', text)` in
`preprocessing_lambda.preprocess_text`. -/
def keepChar (c : Char) : Bool :=
  ('a' ≤ c && c ≤ 'z') || ('A' ≤ c && c ≤ 'Z') || isPySpace c

/-- Model of Python `str.split()` with no separator argument: split on
runs of whitespace and drop empty chunks. -/
def pysplit (s : Str) : List Str :=
  (s.splitOnP isPySpace).filter (fun t => !t.isEmpty)

/-- The fallback stop-word set hard-coded in `preprocessing_lambda.py`
(used whenever the NLTK corpus is unavailable). -/
def stop_words : List Str :=
  (["i", "me", "my", "myself", "we", "our", "ours", "ourselves", "you", "your", "yours",
    "yourself", "yourselves", "he", "him", "his", "himself", "she", "her", "hers",
    "herself", "it", "its", "itself", "they", "them", "their", "theirs", "themselves",
    "what", "which", "who", "whom", "this", "that", "these", "those", "am", "is", "are",
    "was", "were", "be", "been", "being", "have", "has", "had", "having", "do", "does",
    "did", "doing", "a", "an", "the", "and", "but", "if", "or", "because", "as", "until",
    "while", "of", "at", "by", "for", "with", "through", "during", "before", "after",
    "above", "below", "up", "down", "in", "out", "on", "off", "over", "under", "again",
    "further", "then", "once"] : List String).map str

/-- The token filter in `preprocess_text`:
`if token not in stop_words and len(token) > 2`. -/
def keptToken (t : Str) : Bool :=
  decide (t ∉ stop_words) && decide (2 < t.length)

/-- Shallow embedding of `preprocessing_lambda.preprocess_text` on the
fallback path (`NLTK_AVAILABLE == False`): lowercase, strip characters
outside `[a-zA-Z\s]`, split on whitespace, then drop stop words and
tokens of length at most 2.  `none` models a non-string input
(`not isinstance(text, str)`), and the empty string is falsy in Python,
so both return `[]`. -/
def preprocess_text : Option Str → List Str
  | none => []
  | some s =>
    if s = [] then []
    else
      let stripped := (s.map asciiLower).filter keepChar
      (pysplit stripped).filter keptToken

/-- Shallow embedding of `preprocess_text` on the NLTK path
(`NLTK_AVAILABLE == True`).  `tokenize` abstracts `word_tokenize` (with
its `text.split()` exception fallback), `lemmatize` abstracts
`WordNetLemmatizer.lemmatize` (with its identity exception fallback) and
`stopSet` abstracts `stopwords.words('english')` (with its hard-coded
fallback); all three live outside this repository. -/
def preprocess_text_nltk (tokenize : Str → List Str) (lemmatize : Str → Str)
    (stopSet : List Str) : Option Str → List Str
  | none => []
  | some s =>
    if s = [] then []
    else
      let stripped := (s.map asciiLower).filter keepChar
      ((tokenize stripped).filter
        (fun t => decide (t ∉ stopSet) && decide (2 < t.length))).map lemmatize

/-- One concrete behaviour of NLTK `word_tokenize` (the external
tokenizer of the NLTK path): the Penn Treebank tokenizer splits the
single word "cannot" into the two tokens "can" and "not"; on other
inputs this instance falls back to whitespace splitting, as the
handler's own exception path does. -/
def word_tokenize_cannot (s : Str) : List Str :=
  if s = str "cannot" then [str "can", str "not"] else pysplit s

/-- The fixed profanity vocabulary of `profanity_check_lambda.py`.
The Python source stores it as a `set`; iteration order of a Python set
is unspecified, so the literal's order is used here. -/
def PROFANITY_WORDS : List Str :=
  (["damn", "hell", "crap", "shit", "fuck", "fucking", "fucked", "bitch", "bastard",
    "asshole", "ass", "piss", "suck", "sucks", "sucked", "stupid", "idiot", "moron",
    "dumb", "hate", "terrible", "awful", "horrible", "disgusting", "pathetic",
    "worthless", "useless", "garbage", "trash", "piece of shit", "bullshit"] :
    List String).map str

/-- Does `p` occur at the head of `s`?  (Auxiliary for substring search.) -/
def leadsWith : Str → Str → Bool
  | [], _ => true
  | _ :: _, [] => false
  | p :: ps, c :: cs => p == c && leadsWith ps cs

/-- Model of the Python membership test `pat in s` on strings:
`pat` occurs as a contiguous substring of `s`. -/
def strContains : Str → Str → Bool
  | [], pat => pat.isEmpty
  | s@(_ :: rest), pat => leadsWith pat s || strContains rest pat

/-- Shallow embedding of `profanity_check_lambda.check_profanity`:
lowercase the text and collect every vocabulary entry occurring as a
substring.  `none` models a non-string input; the empty string is falsy. -/
def check_profanity : Option Str → Bool × List Str
  | none => (false, [])
  | some s =>
    if s = [] then (false, [])
    else
      let text_lower := s.map asciiLower
      let found := PROFANITY_WORDS.filter (fun w => strContains text_lower w)
      (decide (0 < found.length), found)

/-- Shallow embedding of `profanity_check_lambda.check_profanity_in_tokens`:
collect `token.lower()` for every token whose lowercasing is exactly a
vocabulary entry. -/
def check_profanity_in_tokens (tokens : List Str) : Bool × List Str :=
  if tokens = [] then (false, [])
  else
    let found := (tokens.map (fun t => t.map asciiLower)).filter
      (fun t => decide (t ∈ PROFANITY_WORDS))
    (decide (0 < found.length), found)

/-- The four text fields the profanity handler inspects: raw and
tokenized body (`reviewText`) and summary. -/
structure ProfInput where
  body_original : Str
  body_tokens : List Str
  summary_original : Str
  summary_tokens : List Str

/-- Embedding of the verdict-combination fragment of
`profanity_check_lambda.lambda_handler`: `has_any_profanity` is the
disjunction of the four per-field checks and `all_profanity_words` is
`list(set(...))` of their concatenation.  Python's `set` ordering is
hash-based; it is modelled by the deterministic `List.dedup`. -/
def combined_profanity (inp : ProfInput) : Bool × List Str :=
  let r := check_profanity (some inp.body_original)
  let rt := check_profanity_in_tokens inp.body_tokens
  let sm := check_profanity (some inp.summary_original)
  let st := check_profanity_in_tokens inp.summary_tokens
  ((r.1 || rt.1) || (sm.1 || st.1), (r.2 ++ rt.2 ++ sm.2 ++ st.2).dedup)

/-- An incoming review (`reviews_devset.json` record).  `none` models a
missing field of the JSON object. -/
structure ReviewData where
  reviewerID : Option Str
  asin : Option Str
  reviewText : Option Str
  summary : Option Str
  overall : Option ℚ

/-- The preprocessing handler feeds `review_data.get('reviewText', '')`
and `review_data.get('summary', '')` into `preprocess_text`; the
profanity handler then receives both the originals and the token lists. -/
def review_prof_input (rd : ReviewData) : ProfInput :=
  let bodyOrig := rd.reviewText.getD []
  let sumOrig := rd.summary.getD []
  { body_original := bodyOrig
    body_tokens := preprocess_text (some bodyOrig)
    summary_original := sumOrig
    summary_tokens := preprocess_text (some sumOrig) }

/-- Combined profanity verdict computed for one review by the
preprocessing and profanity stages together. -/
def review_profanity (rd : ReviewData) : Bool :=
  (combined_profanity (review_prof_input rd)).1

/-- The per-author record in the `users` DynamoDB table. -/
structure UserRecord where
  profanity_count : ℕ
  is_banned : Bool
deriving DecidableEq

/-- Shallow embedding of the violation update shared by
`profanity_check_lambda.lambda_handler` (lines 178-201) and
`real_serverless_pipeline.update_user_profanity_count`: read the current
count (0 when the record is absent), add one, and store
`is_banned = new_count > 3`. -/
def update_user_profanity_count (u : Option UserRecord) : UserRecord :=
  let current_count := (u.map UserRecord.profanity_count).getD 0
  let new_count := current_count + 1
  { profanity_count := new_count, is_banned := decide (3 < new_count) }

/-- Effect of one review on one author's record: the update runs only
when the combined verdict is true (a clean review writes nothing). -/
def process_review_user (u : Option UserRecord) (hasProfanity : Bool) :
    Option UserRecord :=
  if hasProfanity then some (update_user_profanity_count u) else u

/-- State of one author's record after a sequence of reviews, given each
review's combined profanity verdict; the author starts absent. -/
def run_user_updates (updates : List Bool) : Option UserRecord :=
  updates.foldl process_review_user none

/-- Count stored for the author (0 when the record is absent). -/
def countOf (u : Option UserRecord) : ℕ :=
  (u.map UserRecord.profanity_count).getD 0

/-- Ban flag stored for the author (false when the record is absent). -/
def bannedOf (u : Option UserRecord) : Bool :=
  (u.map UserRecord.is_banned).getD false

/-- One violation-recording site as it appears in both the profanity
handler and the orchestrator: the update fires only when the verdict is
true and a reviewer id is present (Python truthiness of `reviewerID`). -/
def record_violation_step (hasProfanity reviewerPresent : Bool)
    (u : Option UserRecord) : Option UserRecord :=
  if hasProfanity && reviewerPresent then some (update_user_profanity_count u) else u

/-- Effect of one full `process_review_through_serverless_chain` run on
the author's user record: the profanity handler increments the count
itself (profanity_check_lambda.py lines 176-201), and afterwards
`store_result_to_dynamodb` calls `update_user_profanity_count` again
(real_serverless_pipeline.py lines 274-277). -/
def process_review_chain_user (rd : ReviewData) (u : Option UserRecord) :
    Option UserRecord :=
  let hp := review_profanity rd
  let afterProfanityStage := record_violation_step hp rd.reviewerID.isSome u
  record_violation_step hp rd.reviewerID.isSome afterProfanityStage

/-- Outcome of the user-update block of
`profanity_check_lambda.lambda_handler` as seen by the invoker:
the returned status code, whether the user record was written, and
whether the inner `except` recorded a `user_update_error` field. -/
structure ProfanityHandlerOutcome where
  statusCode : ℕ
  user_updated : Bool
  user_update_error : Bool
deriving DecidableEq

/-- Embedding of lines 176-221 of `profanity_check_lambda.lambda_handler`:
when DynamoDB is unavailable the inner `try/except` catches the error,
stores it under `user_update_error` in the body, and the handler still
returns `statusCode 200`. -/
def profanity_user_update_outcome (hasProfanity reviewerPresent storeAvailable : Bool) :
    ProfanityHandlerOutcome :=
  if hasProfanity && reviewerPresent then
    if storeAvailable then
      { statusCode := 200, user_updated := true, user_update_error := false }
    else
      { statusCode := 200, user_updated := false, user_update_error := true }
  else
    { statusCode := 200, user_updated := false, user_update_error := false }

/-- One worker executing `update_user_profanity_count` split at its
store boundary: a `get_item` step that copies the store into local
state, then a `put_item` step that writes the incremented record. -/
structure RmwWorker where
  readState : Option (Option UserRecord)
  done : Bool

/-- Worker not yet started. -/
def freshWorker : RmwWorker := { readState := none, done := false }

/-- One step of a worker against the shared store: first invocation
performs the read (`get_item`), the second performs the write
(`put_item` of the incremented record computed from the earlier read). -/
def rmwStep (store : Option UserRecord) (w : RmwWorker) :
    Option UserRecord × RmwWorker :=
  match w.readState, w.done with
  | none, _ => (store, { readState := some store, done := false })
  | some r, false => (some (update_user_profanity_count r), { readState := some r, done := true })
  | some _, true => (store, w)

/-- Run two workers under an explicit interleaving: `true` schedules a
step of worker `a`, `false` a step of worker `b`. -/
def runInterleaving : List Bool → Option UserRecord → RmwWorker → RmwWorker →
    Option UserRecord
  | [], store, _, _ => store
  | true :: rest, store, a, b =>
    let p := rmwStep store a
    runInterleaving rest p.1 p.2 b
  | false :: rest, store, a, b =>
    let p := rmwStep store b
    runInterleaving rest p.1 a p.2

/-- Rating extracted by the profanity handler:
`processed_data.get('original_review', {}).get('overall', 0)`. -/
def profanity_overall_rating (original_overall : Option ℚ) : ℚ :=
  original_overall.getD 0

/-- Rating extracted by the sentiment handler:
`profanity_data.get('original_review', {}).get('overall', 3.0)`. -/
def sentiment_overall_rating (original_overall : Option ℚ) : ℚ :=
  original_overall.getD 3

/-- The profanity handler's `low_rating_negative = overall_rating <= 2.0`. -/
def low_rating_negative (rating : ℚ) : Bool :=
  decide (rating ≤ 2)

/-- Sentiment labels produced by `sentiment_analysis_lambda.py`. -/
inductive Sentiment where
  | positive
  | negative
  | neutral
deriving DecidableEq

/-- The positive word list of `sentiment_analysis_lambda.py`. -/
def POSITIVE_WORDS : List Str :=
  (["excellent", "great", "amazing", "wonderful", "fantastic", "awesome", "superb",
    "outstanding", "brilliant", "perfect", "love", "loved", "loving", "good", "nice",
    "best", "better", "happy", "pleased", "satisfied", "recommend", "recommended",
    "quality", "beautiful", "impressive", "remarkable", "incredible", "phenomenal",
    "exceptional", "marvelous", "splendid", "terrific", "fabulous", "delightful"] :
    List String).map str

/-- The negative word list of `sentiment_analysis_lambda.py`. -/
def NEGATIVE_WORDS : List Str :=
  (["terrible", "awful", "horrible", "bad", "worst", "hate", "hated", "hating",
    "disappointing", "disappointed", "poor", "useless", "worthless", "garbage",
    "trash", "disgusting", "pathetic", "annoying", "frustrating", "broken",
    "defective", "cheap", "overpriced", "waste", "regret", "avoid", "problems",
    "issues", "failed", "failure", "nightmare", "disaster", "mess", "sucks"] :
    List String).map str

/-- Word characters of the regex `\w` over ASCII text. -/
def isWordChar (c : Char) : Bool :=
  ('a' ≤ c && c ≤ 'z') || ('A' ≤ c && c ≤ 'Z') || ('0' ≤ c && c ≤ '9') || c = '_'

/-- Model of `re.findall(r'\b\w+\b', text)`: the maximal runs of word
characters. -/
def findall_words (s : Str) : List Str :=
  (s.splitOnP (fun c => !isWordChar c)).filter (fun t => !t.isEmpty)

/-- Rating-only sentiment used by `analyze_sentiment_basic` when the
text is missing or not a string (confidences 0.7 / 0.7 / 0.5). -/
def rating_sentiment_for_empty_text (rating : Option ℚ) : Sentiment × ℚ :=
  match rating with
  | some r =>
    if 4 ≤ r then (.positive, 7/10)
    else if r ≤ 2 then (.negative, 7/10)
    else (.neutral, 1/2)
  | none => (.neutral, 0)

/-- Rating-only sentiment used by `analyze_sentiment_basic` when the
text contains no sentiment words (confidences 0.6 / 0.6 / 0.5). -/
def rating_sentiment_for_no_words (rating : Option ℚ) : Sentiment × ℚ :=
  match rating with
  | some r =>
    if 4 ≤ r then (.positive, 3/5)
    else if r ≤ 2 then (.negative, 3/5)
    else (.neutral, 1/2)
  | none => (.neutral, 0)

/-- The word-count branch's sentiment score in `analyze_sentiment_basic`:
`(pos - neg) / (pos + neg)`, blended with the rating-derived score
`(rating - 3) / 2` by simple averaging when a rating is present. -/
def basic_word_score (positive_count negative_count : ℕ) (rating : Option ℚ) : ℚ :=
  let total := positive_count + negative_count
  let s : ℚ := ((positive_count : ℚ) - (negative_count : ℚ)) / (total : ℚ)
  match rating with
  | some r => (s + (r - 3) / 2) / 2
  | none => s

/-- The word-count branch's confidence in `analyze_sentiment_basic`:
`min(total / len(words), 1.0)` (0 on an empty word list), raised to at
least 0.5 when a rating is present. -/
def basic_word_confidence (positive_count negative_count wordCount : ℕ)
    (rating : Option ℚ) : ℚ :=
  let total := positive_count + negative_count
  let confidence : ℚ :=
    if wordCount = 0 then 0 else min ((total : ℚ) / (wordCount : ℚ)) 1
  match rating with
  | some _ => max confidence (1/2)
  | none => confidence

/-- Shallow embedding of
`sentiment_analysis_lambda.analyze_sentiment_basic`.  Floating-point
arithmetic is modelled over `ℚ`. -/
def analyze_sentiment_basic (text : Option Str) (rating : Option ℚ) : Sentiment × ℚ :=
  match text with
  | none => rating_sentiment_for_empty_text rating
  | some s =>
    if s = [] then rating_sentiment_for_empty_text rating
    else
      let words := findall_words (s.map asciiLower)
      let positive_count := (words.filter (fun w => decide (w ∈ POSITIVE_WORDS))).length
      let negative_count := (words.filter (fun w => decide (w ∈ NEGATIVE_WORDS))).length
      if positive_count + negative_count = 0 then rating_sentiment_for_no_words rating
      else
        let sentiment_score := basic_word_score positive_count negative_count rating
        let confidence := basic_word_confidence positive_count negative_count words.length rating
        if 1/10 < sentiment_score then (.positive, confidence)
        else if sentiment_score < -(1/10) then (.negative, confidence)
        else (.neutral, confidence)

/-- Shallow embedding of
`sentiment_analysis_lambda.analyze_sentiment_textblob`; `polarity`
abstracts the external `TextBlob(text).sentiment.polarity` value. -/
def analyze_sentiment_textblob (polarity : ℚ) : Sentiment × ℚ :=
  if 1/10 < polarity then (.positive, |polarity|)
  else if polarity < -(1/10) then (.negative, |polarity|)
  else (.neutral, 1 - |polarity|)

/-- Shallow embedding of `sentiment_analysis_lambda.analyze_sentiment`
when `TEXTBLOB_AVAILABLE` holds: fall back to the word-list scorer when
the TextBlob confidence proxy is below 0.3.  When TextBlob is
unavailable `analyze_sentiment` is exactly `analyze_sentiment_basic`. -/
def analyze_sentiment_tb (polarity : ℚ) (text : Option Str) (rating : Option ℚ) :
    Sentiment × ℚ :=
  let r := analyze_sentiment_textblob polarity
  if r.2 < 3/10 then
    let b := analyze_sentiment_basic text rating
    (b.1, max r.2 b.2)
  else r

/-- The rating vote of the combination step (`overall_rating >= 4` /
`<= 2` / otherwise), which is also `rating_based_sentiment`. -/
def rating_label (rating : ℚ) : Sentiment :=
  if 4 ≤ rating then .positive else if rating ≤ 2 then .negative else .neutral

/-- Per-label accumulated weight of the combination step of
`sentiment_analysis_lambda.lambda_handler` (lines 221-250). -/
def sentiment_score_of (bs : Sentiment) (review_weight : ℚ) (ss : Sentiment)
    (summary_weight : ℚ) (rating : ℚ) (rating_weight : ℚ) (lab : Sentiment) : ℚ :=
  (if bs = lab then review_weight else 0) +
  (if ss = lab then summary_weight else 0) +
  (if rating_label rating = lab then rating_weight else 0)

/-- Shallow embedding of the weighted combination in
`sentiment_analysis_lambda.lambda_handler`: weights are
`len(text) * confidence` per field plus a fixed `0.3` for the rating;
the final label is the first key of `{positive, negative, neutral}`
attaining the maximal accumulated weight (Python `max` over the dict's
insertion order) and the final confidence is its weight over the total. -/
def combine_sentiment (bodyLen summaryLen : ℕ) (bs : Sentiment) (bc : ℚ)
    (ss : Sentiment) (sc : ℚ) (rating : ℚ) : Sentiment × ℚ :=
  let review_weight : ℚ := (bodyLen : ℚ) * bc
  let summary_weight : ℚ := (summaryLen : ℚ) * sc
  let rating_weight : ℚ := 3/10
  let total_weight := review_weight + summary_weight + rating_weight
  if 0 < total_weight then
    let score := sentiment_score_of bs review_weight ss summary_weight rating rating_weight
    let p := score .positive
    let n := score .negative
    let m := score .neutral
    let final : Sentiment :=
      if n ≤ p then (if m ≤ p then .positive else .neutral)
      else (if m ≤ n then .negative else .neutral)
    (final, score final / total_weight)
  else (.neutral, 0)

/-- End-to-end final sentiment of the handler in basic mode
(`TEXTBLOB_AVAILABLE == False`): score body and summary with
`analyze_sentiment_basic` against the (already defaulted) rating, then
combine with the per-field character lengths. -/
def sentiment_lambda_final (body summary : Option Str) (rating : ℚ) : Sentiment × ℚ :=
  let r := analyze_sentiment_basic body (some rating)
  let sm := analyze_sentiment_basic summary (some rating)
  combine_sentiment (body.getD []).length (summary.getD []).length r.1 r.2 sm.1 sm.2 rating

/-- Lowercase ASCII letter test (used to state token invariants). -/
def isLowerAZ (c : Char) : Bool := 'a' ≤ c && c ≤ 'z'

/-! Character-level helper lemmas. -/

/-- Equality of characters is equality of their code points. -/
theorem char_eq_iff_toNat {a b : Char} : a = b ↔ a.toNat = b.toNat := by
  constructor
  · intro h; rw [h]
  · intro h
    exact Char.ext (UInt32.eq_of_toBitVec_eq (BitVec.eq_of_toNat_eq h))

/-- Ordering of characters is ordering of their code points. -/
theorem char_le_iff_toNat {a b : Char} : a ≤ b ↔ a.toNat ≤ b.toNat := by
  rw [Char.le_def, UInt32.le_def, BitVec.le_def]
  rfl

/-- Code point of `Char.ofNat` at a valid scalar value. -/
theorem toNat_ofNat_valid {n : ℕ} (h : Nat.isValidChar n) : (Char.ofNat n).toNat = n := by
  rw [Char.ofNat, dif_pos h]
  rfl

/-- The whitespace test, phrased on code points. -/
theorem isPySpace_iff {c : Char} :
    isPySpace c = true ↔
      (c.toNat = 32 ∨ c.toNat = 9 ∨ c.toNat = 10 ∨ c.toNat = 13 ∨
        c.toNat = 11 ∨ c.toNat = 12) := by
  simp [isPySpace, char_eq_iff_toNat,
    show (' ' : Char).toNat = 32 from rfl, show ('\t' : Char).toNat = 9 from rfl,
    show ('\n' : Char).toNat = 10 from rfl, show ('\r' : Char).toNat = 13 from rfl,
    show ('\x0b' : Char).toNat = 11 from rfl, show ('\x0c' : Char).toNat = 12 from rfl]
  tauto

/-- Reduction of `asciiLower` on an uppercase ASCII letter. -/
theorem asciiLower_of_upper {d : Char} (h : 'A' ≤ d ∧ d ≤ 'Z') :
    asciiLower d = Char.ofNat (d.toNat + 32) := by
  simp [asciiLower, h.1, h.2]

/-- Reduction of `asciiLower` outside the uppercase ASCII letters. -/
theorem asciiLower_of_not_upper {d : Char} (h : ¬('A' ≤ d ∧ d ≤ 'Z')) :
    asciiLower d = d := by
  simp only [asciiLower, Bool.and_eq_true, decide_eq_true_eq]
  rw [if_neg h]

/-- Code-point bounds of an uppercase ASCII letter. -/
theorem upper_toNat_bounds {d : Char} (h : 'A' ≤ d ∧ d ≤ 'Z') :
    65 ≤ d.toNat ∧ d.toNat ≤ 90 := by
  obtain ⟨h1, h2⟩ := h
  rw [char_le_iff_toNat, show ('A' : Char).toNat = 65 from rfl] at h1
  rw [char_le_iff_toNat, show ('Z' : Char).toNat = 90 from rfl] at h2
  exact ⟨h1, h2⟩

/-- Lowercasing never moves a character into or out of the whitespace
class, so word boundaries are unchanged. -/
theorem isPySpace_asciiLower (c : Char) : isPySpace (asciiLower c) = isPySpace c := by
  by_cases h : 'A' ≤ c ∧ c ≤ 'Z'
  · obtain ⟨h1, h2⟩ := upper_toNat_bounds h
    have hv : Nat.isValidChar (c.toNat + 32) := Or.inl (by omega)
    have ht := toNat_ofNat_valid hv
    rw [asciiLower_of_upper h]
    have e1 : isPySpace (Char.ofNat (c.toNat + 32)) = false := by
      rw [← Bool.not_eq_true, isPySpace_iff, ht]
      omega
    have e2 : isPySpace c = false := by
      rw [← Bool.not_eq_true, isPySpace_iff]
      omega
    rw [e1, e2]
  · rw [asciiLower_of_not_upper h]

/-- A non-whitespace character kept by the strip that lies in the image
of `asciiLower` is a lowercase ASCII letter. -/
theorem keepChar_lower_of_image (d : Char)
    (hk : keepChar (asciiLower d) = true)
    (hs : isPySpace (asciiLower d) = false) :
    isLowerAZ (asciiLower d) = true := by
  by_cases h : 'A' ≤ d ∧ d ≤ 'Z'
  · obtain ⟨h1, h2⟩ := upper_toNat_bounds h
    have hv : Nat.isValidChar (d.toNat + 32) := Or.inl (by omega)
    have ht := toNat_ofNat_valid hv
    rw [asciiLower_of_upper h]
    simp only [isLowerAZ, Bool.and_eq_true, decide_eq_true_eq]
    constructor
    · rw [char_le_iff_toNat, show ('a' : Char).toNat = 97 from rfl, ht]; omega
    · rw [char_le_iff_toNat, show ('z' : Char).toNat = 122 from rfl, ht]; omega
  · rw [asciiLower_of_not_upper h] at hk hs ⊢
    simp only [keepChar, Bool.or_eq_true, Bool.and_eq_true, decide_eq_true_eq] at hk
    rcases hk with (hlo | hup) | hsp
    · simp [isLowerAZ, hlo.1, hlo.2]
    · exact absurd hup h
    · rw [hsp] at hs; cases hs

/-! List-splitting helper lemmas. -/

/-- Filtering with a predicate that keeps every separator commutes with
splitting: each chunk is filtered in place. -/
theorem splitOnP_filter_comm {α : Type} (p keep : α → Bool)
    (hp : ∀ c, p c = true → keep c = true) (l : List α) :
    (l.filter keep).splitOnP p = (l.splitOnP p).map (fun t => t.filter keep) := by
  induction l with
  | nil => simp [List.splitOnP_nil]
  | cons a l ih =>
    cases hpa : p a with
    | true =>
      simp [List.filter_cons, List.splitOnP_cons, hpa, hp a hpa, ih]
    | false =>
      obtain ⟨h, t, hht⟩ := List.exists_cons_of_ne_nil (List.splitOnP_ne_nil p l)
      cases hka : keep a with
      | true => simp [List.filter_cons, List.splitOnP_cons, hpa, hka, ih, hht]
      | false => simp [List.filter_cons, List.splitOnP_cons, hpa, hka, ih, hht]

/-- Mapping a function that preserves separator status commutes with
splitting: each chunk is mapped in place. -/
theorem splitOnP_map_comm {α β : Type} (p : β → Bool) (f : α → β) (q : α → Bool)
    (hf : ∀ c, p (f c) = q c) (l : List α) :
    (l.map f).splitOnP p = (l.splitOnP q).map (fun t => t.map f) := by
  induction l with
  | nil => simp [List.splitOnP_nil]
  | cons a l ih =>
    cases hq : q a with
    | true => simp [List.splitOnP_cons, hf a, hq, ih]
    | false =>
      obtain ⟨h, t, hht⟩ := List.exists_cons_of_ne_nil (List.splitOnP_ne_nil q l)
      simp [List.splitOnP_cons, hf a, hq, ih, hht]

/-- Every element of a chunk produced by splitting is an element of the
original list on which the predicate is false. -/
theorem splitOnP_chunk_chars {α : Type} (p : α → Bool) (l : List α) :
    ∀ t ∈ l.splitOnP p, ∀ c ∈ t, c ∈ l ∧ p c = false := by
  induction l with
  | nil =>
    intro t ht c hc
    rw [List.splitOnP_nil] at ht
    simp only [List.mem_singleton] at ht
    subst ht
    simp at hc
  | cons a l ih =>
    intro t ht c hc
    rw [List.splitOnP_cons] at ht
    cases hpa : p a with
    | true =>
      rw [hpa] at ht
      simp only [if_true] at ht
      rcases List.mem_cons.mp ht with h1 | h1
      · subst h1; simp at hc
      · obtain ⟨hcl, hpc⟩ := ih t h1 c hc
        exact ⟨List.mem_cons_of_mem _ hcl, hpc⟩
    | false =>
      rw [hpa] at ht
      simp only [Bool.false_eq_true, if_false] at ht
      obtain ⟨h, tl, hht⟩ := List.exists_cons_of_ne_nil (List.splitOnP_ne_nil p l)
      rw [hht] at ht
      simp only [List.modifyHead_cons] at ht
      rcases List.mem_cons.mp ht with h1 | h1
      · subst h1
        rcases List.mem_cons.mp hc with h2 | h2
        · subst h2; exact ⟨List.mem_cons_self _ _, hpa⟩
        · have hm := ih h (by rw [hht]; exact List.mem_cons_self _ _) c h2
          exact ⟨List.mem_cons_of_mem _ hm.1, hm.2⟩
      · have hm := ih t (by rw [hht]; exact List.mem_cons_of_mem _ h1) c hc
        exact ⟨List.mem_cons_of_mem _ hm.1, hm.2⟩

/-- Tokens produced by `pysplit` are nonempty and consist of
non-whitespace characters of the input. -/
theorem pysplit_token_chars {s t : Str} (ht : t ∈ pysplit s) :
    t ≠ [] ∧ ∀ c ∈ t, c ∈ s ∧ isPySpace c = false := by
  unfold pysplit at ht
  obtain ⟨hmem, hne⟩ := List.mem_filter.mp ht
  refine ⟨?_, fun c hc => splitOnP_chunk_chars isPySpace s t hmem c hc⟩
  simpa using hne

/-- Dropping characters while keeping all whitespace cannot increase the
number of whitespace-separated words. -/
theorem pysplit_filter_length_le (keep : Char → Bool)
    (hk : ∀ c, isPySpace c = true → keep c = true) (l : Str) :
    (pysplit (l.filter keep)).length ≤ (pysplit l).length := by
  unfold pysplit
  rw [splitOnP_filter_comm isPySpace keep hk, List.filter_map]
  simp only [List.length_map]
  rw [← List.countP_eq_length_filter, ← List.countP_eq_length_filter]
  apply List.countP_mono_left
  intro t _ h
  simp only [Function.comp] at h ⊢
  cases t with
  | nil => simp at h
  | cons a l => simp

/-- Mapping a whitespace-preserving function leaves the number of
whitespace-separated words unchanged. -/
theorem pysplit_map_length (f : Char → Char)
    (hf : ∀ c, isPySpace (f c) = isPySpace c) (l : Str) :
    (pysplit (l.map f)).length = (pysplit l).length := by
  unfold pysplit
  rw [splitOnP_map_comm isPySpace f isPySpace hf, List.filter_map]
  simp only [List.length_map]
  congr 1
  apply List.filter_congr
  intro t _
  simp only [Function.comp]
  cases t with
  | nil => rfl
  | cons a l => rfl

/-- Non-whitespace characters surviving the strip are lowercase ASCII
letters (they come through `asciiLower` and `keepChar`). -/
theorem stripped_char_lower {s : Str} {c : Char}
    (hc : c ∈ (s.map asciiLower).filter keepChar)
    (hsp : isPySpace c = false) : isLowerAZ c = true := by
  obtain ⟨hmem, hk⟩ := List.mem_filter.mp hc
  obtain ⟨d, _, hde⟩ := List.mem_map.mp hmem
  exact hde ▸ keepChar_lower_of_image d (hde.symm ▸ hk) (hde.symm ▸ hsp)

/-- Every token emitted by the fallback `preprocess_text` is a nonempty
all-lowercase-ASCII word of length at least 3 outside the stop-word set. -/
theorem preprocess_text_token_props {x : Option Str} {t : Str}
    (ht : t ∈ preprocess_text x) :
    t ≠ [] ∧ (∀ c ∈ t, isLowerAZ c = true) ∧ 2 < t.length ∧ t ∉ stop_words := by
  match x with
  | none => simp [preprocess_text] at ht
  | some s =>
    by_cases hs : s = []
    · simp [preprocess_text, hs] at ht
    · simp only [preprocess_text, if_neg hs] at ht
      obtain ⟨ht1, ht2⟩ := List.mem_filter.mp ht
      simp only [keptToken, Bool.and_eq_true, decide_eq_true_eq] at ht2
      obtain ⟨hne, hchars⟩ := pysplit_token_chars ht1
      refine ⟨hne, fun c hc => ?_, ht2.2, ht2.1⟩
      obtain ⟨hcs, hcsp⟩ := hchars c hc
      exact stripped_char_lower hcs hcsp

/-- Token-count bound for the fallback `preprocess_text`: at most the
whitespace-separated word count of the raw input. -/
theorem preprocess_text_length_le (s : Str) :
    (preprocess_text (some s)).length ≤ (pysplit s).length := by
  by_cases hs : s = []
  · simp [preprocess_text, hs]
  · simp only [preprocess_text, if_neg hs]
    calc ((pysplit ((s.map asciiLower).filter keepChar)).filter keptToken).length
        ≤ (pysplit ((s.map asciiLower).filter keepChar)).length :=
          List.length_filter_le _ _
      _ ≤ (pysplit (s.map asciiLower)).length :=
          pysplit_filter_length_le keepChar
            (fun c hc => by simp [keepChar, hc]) (s.map asciiLower)
      _ = (pysplit s).length := pysplit_map_length asciiLower isPySpace_asciiLower s

/-- Every token emitted by the NLTK-path `preprocess_text` is nonempty
and all-lowercase-ASCII, provided the external tokenizer returns
nonempty runs of non-whitespace input characters and the external
lemmatizer preserves nonempty lowercase words. -/
theorem preprocess_text_nltk_token_props
    (tokenize : Str → List Str) (lemmatize : Str → Str) (stopSet : List Str)
    (x : Option Str)
    (htok : ∀ s : Str, ∀ t ∈ tokenize s, t ≠ [] ∧ ∀ c ∈ t, c ∈ s ∧ isPySpace c = false)
    (hlem : ∀ u : Str, u ≠ [] → (∀ c ∈ u, isLowerAZ c = true) →
      lemmatize u ≠ [] ∧ ∀ c ∈ lemmatize u, isLowerAZ c = true) :
    ∀ t ∈ preprocess_text_nltk tokenize lemmatize stopSet x,
      t ≠ [] ∧ ∀ c ∈ t, isLowerAZ c = true := by
  intro t ht
  match x with
  | none => simp [preprocess_text_nltk] at ht
  | some s =>
    by_cases hs : s = []
    · simp [preprocess_text_nltk, hs] at ht
    · simp only [preprocess_text_nltk, if_neg hs] at ht
      obtain ⟨u, hu, hut⟩ := List.mem_map.mp ht
      obtain ⟨hu1, _⟩ := List.mem_filter.mp hu
      obtain ⟨hune, huchars⟩ := htok _ u hu1
      have hlow : ∀ c ∈ u, isLowerAZ c = true := fun c hc => by
        obtain ⟨hcs, hcsp⟩ := huchars c hc
        exact stripped_char_lower hcs hcsp
      obtain ⟨h1, h2⟩ := hlem u hune hlow
      exact hut ▸ ⟨h1, h2⟩

/-- Every token emitted by the NLTK-path `preprocess_text` is the
lemmatization of a tokenizer token that passed the pre-lemmatization
filter (length greater than 2 and outside the stop-word set). -/
theorem preprocess_text_nltk_mem {tokenize : Str → List Str} {lemmatize : Str → Str}
    {stopSet : List Str} {s t : Str}
    (ht : t ∈ preprocess_text_nltk tokenize lemmatize stopSet (some s)) :
    ∃ u ∈ tokenize ((s.map asciiLower).filter keepChar),
      lemmatize u = t ∧ 2 < u.length ∧ u ∉ stopSet := by
  by_cases hs : s = []
  · simp [preprocess_text_nltk, hs] at ht
  · simp only [preprocess_text_nltk, if_neg hs] at ht
    obtain ⟨u, hu, hut⟩ := List.mem_map.mp ht
    obtain ⟨hu1, hu2⟩ := List.mem_filter.mp hu
    simp only [Bool.and_eq_true, decide_eq_true_eq] at hu2
    exact ⟨u, hu1, hut, hu2.2, hu2.1⟩

/-- Token-count bound for the NLTK path against the tokenizer's own
output: lemmatization is one-to-one positionally and the filter only
removes tokens. -/
theorem preprocess_text_nltk_length_le (tokenize : Str → List Str)
    (lemmatize : Str → Str) (stopSet : List Str) (s : Str) :
    (preprocess_text_nltk tokenize lemmatize stopSet (some s)).length ≤
      (tokenize ((s.map asciiLower).filter keepChar)).length := by
  by_cases hs : s = []
  · simp [preprocess_text_nltk, hs]
  · simp only [preprocess_text_nltk, if_neg hs, List.length_map]
    exact List.length_filter_le _ _

/-- With the code's own whitespace-splitting fallback tokenizer
(the `except` branch around `word_tokenize`) the NLTK path also
satisfies the raw-input word-count bound. -/
theorem preprocess_text_nltk_pysplit_length_le (lemmatize : Str → Str)
    (stopSet : List Str) (s : Str) :
    (preprocess_text_nltk pysplit lemmatize stopSet (some s)).length ≤
      (pysplit s).length := by
  calc (preprocess_text_nltk pysplit lemmatize stopSet (some s)).length
      ≤ (pysplit ((s.map asciiLower).filter keepChar)).length :=
        preprocess_text_nltk_length_le pysplit lemmatize stopSet s
    _ ≤ (pysplit (s.map asciiLower)).length :=
        pysplit_filter_length_le keepChar
          (fun c hc => by simp [keepChar, hc]) (s.map asciiLower)
    _ = (pysplit s).length := pysplit_map_length asciiLower isPySpace_asciiLower s

/-! User-violation-tracker helper lemmas. -/

/-- Running the per-review update from an existing record adds the
number of profane reviews to the count and recomputes the ban flag. -/
theorem foldl_process_some (rs : List Bool) : ∀ (c : ℕ) (b : Bool),
    rs.foldl process_review_user (some ⟨c, b⟩) =
      if rs.count true = 0 then some ⟨c, b⟩
      else some ⟨c + rs.count true, decide (3 < c + rs.count true)⟩ := by
  induction rs with
  | nil => intro c b; simp
  | cons x rest ih =>
    intro c b
    cases x with
    | false =>
      have hstep : process_review_user (some ⟨c, b⟩) false = some ⟨c, b⟩ := rfl
      rw [List.foldl_cons, hstep, ih]
      simp [List.count_cons]
    | true =>
      have hstep : process_review_user (some ⟨c, b⟩) true =
          some ⟨c + 1, decide (3 < c + 1)⟩ := rfl
      rw [List.foldl_cons, hstep, ih]
      have hc : (true :: rest).count true = rest.count true + 1 := by
        simp [List.count_cons]
      by_cases h : rest.count true = 0
      · rw [if_pos h, hc, h, if_neg (by omega)]
      · rw [if_neg h, hc, if_neg (by omega)]
        have harith : c + 1 + rest.count true = c + (rest.count true + 1) := by omega
        rw [harith]

/-- Closed form of the author's record after any sequence of reviews:
the count is the number of profane reviews and the stored ban flag is
exactly `count > 3`. -/
theorem run_user_updates_eq (rs : List Bool) :
    run_user_updates rs =
      if rs.count true = 0 then none
      else some ⟨rs.count true, decide (3 < rs.count true)⟩ := by
  unfold run_user_updates
  induction rs with
  | nil => rfl
  | cons x rest ih =>
    cases x with
    | false =>
      have hstep : process_review_user none false = none := rfl
      rw [List.foldl_cons, hstep, ih]
      simp [List.count_cons]
    | true =>
      have hstep : process_review_user none true = some ⟨1, false⟩ := rfl
      rw [List.foldl_cons, hstep, foldl_process_some]
      have hc : (true :: rest).count true = rest.count true + 1 := by
        simp [List.count_cons]
      by_cases h : rest.count true = 0
      · rw [if_pos h, hc, h, if_neg (by omega)]
        rfl
      · rw [if_neg h, hc, if_neg (by omega)]
        have harith : (1 : ℕ) + rest.count true = rest.count true + 1 := by omega
        rw [harith]

/-- Once the stored ban flag is true it remains true after any further
reviews (profane or clean). -/
theorem run_user_updates_sticky (rs more : List Bool)
    (h : bannedOf (run_user_updates rs) = true) :
    bannedOf (run_user_updates (rs ++ more)) = true := by
  rw [run_user_updates_eq] at h ⊢
  by_cases h0 : rs.count true = 0
  · rw [if_pos h0] at h
    simp [bannedOf] at h
  · rw [if_neg h0] at h
    simp only [bannedOf, Option.map_some', Option.getD_some] at h
    have h4 : 3 < rs.count true := of_decide_eq_true h
    have happ : (rs ++ more).count true = rs.count true + more.count true :=
      List.count_append true rs more
    rw [happ, if_neg (by omega)]
    simp only [bannedOf, Option.map_some', Option.getD_some]
    exact decide_eq_true (by omega)

/-! Profanity-detector helper lemmas. -/

/-- The vocabulary contains no empty entry. -/
theorem profanity_words_ne_nil : ([] : Str) ∉ PROFANITY_WORDS := by decide

/-- No vocabulary entry occurs in the empty string. -/
theorem strContains_nil {w : Str} (hw : w ∈ PROFANITY_WORDS) :
    strContains [] w = false := by
  cases w with
  | nil => exact absurd hw profanity_words_ne_nil
  | cons a t => rfl

/-- Verdict of the raw-string check: some vocabulary entry is a
substring of the lowercased text. -/
theorem check_profanity_verdict (x : Option Str) :
    (check_profanity x).1 = true ↔
      ∃ w ∈ PROFANITY_WORDS, strContains ((x.getD []).map asciiLower) w = true := by
  match x with
  | none =>
    simp only [check_profanity, Option.getD_none, List.map_nil]
    constructor
    · intro h; cases h
    · rintro ⟨w, hw, hc⟩
      rw [strContains_nil hw] at hc
      cases hc
  | some s =>
    by_cases hs : s = []
    · subst hs
      simp only [check_profanity, if_pos rfl, Option.getD_some, List.map_nil]
      constructor
      · intro h; cases h
      · rintro ⟨w, hw, hc⟩
        rw [strContains_nil hw] at hc
        cases hc
    · simp only [check_profanity, if_neg hs, Option.getD_some, decide_eq_true_eq]
      rw [← List.countP_eq_length_filter, List.countP_pos_iff]

/-- Matched terms of the raw-string check: vocabulary entries that occur
as substrings of the lowercased text. -/
theorem check_profanity_found (x : Option Str) (w : Str) :
    w ∈ (check_profanity x).2 ↔
      w ∈ PROFANITY_WORDS ∧ strContains ((x.getD []).map asciiLower) w = true := by
  match x with
  | none =>
    simp only [check_profanity, Option.getD_none, List.map_nil]
    constructor
    · intro h; cases h
    · rintro ⟨hw, hc⟩
      rw [strContains_nil hw] at hc
      cases hc
  | some s =>
    by_cases hs : s = []
    · subst hs
      simp only [check_profanity, if_pos rfl, Option.getD_some, List.map_nil]
      constructor
      · intro h; cases h
      · rintro ⟨hw, hc⟩
        rw [strContains_nil hw] at hc
        cases hc
    · simp only [check_profanity, if_neg hs, Option.getD_some]
      rw [List.mem_filter]

/-- Verdict of the token check: some token lowercases to a vocabulary
entry. -/
theorem check_profanity_in_tokens_verdict (tokens : List Str) :
    (check_profanity_in_tokens tokens).1 = true ↔
      ∃ t ∈ tokens, t.map asciiLower ∈ PROFANITY_WORDS := by
  by_cases h : tokens = []
  · subst h
    simp [check_profanity_in_tokens]
  · simp only [check_profanity_in_tokens, if_neg h, decide_eq_true_eq]
    rw [← List.countP_eq_length_filter, List.countP_pos_iff]
    constructor
    · rintro ⟨u, hu, hp⟩
      obtain ⟨t, ht, rfl⟩ := List.mem_map.mp hu
      exact ⟨t, ht, of_decide_eq_true hp⟩
    · rintro ⟨t, ht, hp⟩
      exact ⟨t.map asciiLower, List.mem_map_of_mem _ ht, decide_eq_true hp⟩

/-- Matched terms of the token check: lowercased tokens that are
vocabulary entries. -/
theorem check_profanity_in_tokens_found (tokens : List Str) (w : Str) :
    w ∈ (check_profanity_in_tokens tokens).2 ↔
      (∃ t ∈ tokens, t.map asciiLower = w) ∧ w ∈ PROFANITY_WORDS := by
  by_cases h : tokens = []
  · subst h
    simp [check_profanity_in_tokens]
  · simp only [check_profanity_in_tokens, if_neg h]
    rw [List.mem_filter]
    simp only [List.mem_map, decide_eq_true_eq]

/-! Claim theorems. -/

/-- C1: the claim states that one finalized profane review performs
exactly one violation increment for its author.  On the code, the
profanity stage increments once and `store_result_to_dynamodb`
increments a second time: a fresh author submitting the single profane
review "this shit" ends one full chain run with a stored count of 2,
not 1. -/
theorem c1_chain_double_increment :
    review_profanity ⟨some (str "u1"), some (str "p1"), some (str "this shit"),
      some (str ""), some 1⟩ = true ∧
    process_review_chain_user ⟨some (str "u1"), some (str "p1"), some (str "this shit"),
      some (str ""), some 1⟩ none =
      some { profanity_count := 2, is_banned := false } ∧
    some { profanity_count := 2, is_banned := false } ≠
      (some { profanity_count := 1, is_banned := false } : Option UserRecord) := by
  refine ⟨rfl, rfl, by decide⟩

/-- C2: the claim states that re-running the full pipeline on an
already-finalized review key is a no-op on persistent state.  On the
code there is no idempotency marker: re-running the chain on the very
same profane review increments the author's count again (from 2 to 4),
so the second run is not a no-op. -/
theorem c2_rerun_not_noop :
    process_review_chain_user ⟨some (str "u1"), some (str "p1"), some (str "this shit"),
      some (str ""), some 1⟩ none =
      some { profanity_count := 2, is_banned := false } ∧
    process_review_chain_user ⟨some (str "u1"), some (str "p1"), some (str "this shit"),
      some (str ""), some 1⟩ (some { profanity_count := 2, is_banned := false }) =
      some { profanity_count := 4, is_banned := true } ∧
    some { profanity_count := 4, is_banned := true } ≠
      (some { profanity_count := 2, is_banned := false } : Option UserRecord) := by
  refine ⟨rfl, rfl, by decide⟩

/-- C3: after the violation update that makes the count `N` the stored
ban flag equals `N > 3`, a clean review writes nothing, and once true
the flag stays true under any later update. -/
theorem c3_ban_threshold :
    (∀ rs : List Bool, run_user_updates rs =
        if rs.count true = 0 then none
        else some ⟨rs.count true, decide (3 < rs.count true)⟩) ∧
    (∀ rs more : List Bool, bannedOf (run_user_updates rs) = true →
        bannedOf (run_user_updates (rs ++ more)) = true) :=
  ⟨run_user_updates_eq, run_user_updates_sticky⟩

/-- Witness for C3: an author with four profane reviews is banned and
stays banned after a subsequent clean review. -/
theorem c3_ban_threshold_witness :
    bannedOf (run_user_updates ([true, true, true, true] ++ [false])) = true :=
  c3_ban_threshold.2 [true, true, true, true] [false] (by decide)

/-- C4: the claim states that a store outage during the violation update
surfaces an error outcome to the caller.  On the code the inner
`try/except` swallows the error: the handler still returns
`statusCode 200` while the user record was never written (the error is
only recorded inside the body as `user_update_error`). -/
theorem c4_store_error_reported_as_success :
    profanity_user_update_outcome true true false =
      { statusCode := 200, user_updated := false, user_update_error := true } ∧
    (profanity_user_update_outcome true true false).statusCode =
      (profanity_user_update_outcome true true true).statusCode := by
  refine ⟨rfl, rfl⟩

/-- C5: the claim states the violation update is a single atomic
conditional update so that two concurrent profane reviews from a fresh
author always end with count 2.  The code performs a separate `get_item`
followed by a separate `put_item`; under the interleaving
read-A, read-B, write-A, write-B the final count is 1 (lost update),
while the serial schedule gives 2. -/
theorem c5_lost_update :
    countOf (runInterleaving [true, false, true, false] none freshWorker freshWorker) = 1 ∧
    countOf (runInterleaving [true, true, false, false] none freshWorker freshWorker) = 2 ∧
    (1 : ℕ) ≠ 2 := by
  refine ⟨rfl, rfl, by decide⟩

/-- C6 counterexample: the claim says a missing numeric rating is
treated as the neutral midpoint 3 in every stage that consumes it, but
the profanity stage defaults a missing rating to 0, which also makes
its low-rating flag true. -/
theorem c6_missing_rating_counterexample :
    profanity_overall_rating none = 0 ∧
    low_rating_negative (profanity_overall_rating none) = true ∧
    profanity_overall_rating none ≠ 3 := by
  refine ⟨rfl, rfl, by norm_num [profanity_overall_rating]⟩

/-- C6 (amended): a missing body or summary is treated as the empty
string (yielding empty token lists, never a failure); a missing rating
defaults to 3.0 in the sentiment stage but to 0 in the profanity stage,
where it makes `low_rating_negative` true. -/
theorem c6_missing_field_defaults :
    (∀ (rid pid sm : Option Str) (ov : Option ℚ),
        (review_prof_input ⟨rid, pid, none, sm, ov⟩).body_original = [] ∧
        (review_prof_input ⟨rid, pid, none, sm, ov⟩).body_tokens = []) ∧
    (∀ (rid pid bd : Option Str) (ov : Option ℚ),
        (review_prof_input ⟨rid, pid, bd, none, ov⟩).summary_original = [] ∧
        (review_prof_input ⟨rid, pid, bd, none, ov⟩).summary_tokens = []) ∧
    sentiment_overall_rating none = 3 ∧
    profanity_overall_rating none = 0 ∧
    low_rating_negative (profanity_overall_rating none) = true := by
  refine ⟨fun rid pid sm ov => ⟨rfl, rfl⟩, fun rid pid bd ov => ⟨rfl, rfl⟩, rfl, rfl, rfl⟩

/-- C7: the combined verdict is true exactly when the body or summary
matches the vocabulary in either representation (substring on the
lowercased raw string, or exact equality of a lowercased token); the
reported matched-term list is the deduplicated union of all matched
terms (deterministic in this model); and empty input yields
`(false, [])`. -/
theorem c7_profanity_detector :
    (∀ inp : ProfInput,
      ((combined_profanity inp).1 = true ↔
        ((∃ w ∈ PROFANITY_WORDS, strContains (inp.body_original.map asciiLower) w = true) ∨
         (∃ t ∈ inp.body_tokens, t.map asciiLower ∈ PROFANITY_WORDS)) ∨
        ((∃ w ∈ PROFANITY_WORDS, strContains (inp.summary_original.map asciiLower) w = true) ∨
         (∃ t ∈ inp.summary_tokens, t.map asciiLower ∈ PROFANITY_WORDS)))) ∧
    (∀ (inp : ProfInput) (w : Str),
      (w ∈ (combined_profanity inp).2 ↔
        w ∈ PROFANITY_WORDS ∧
          (strContains (inp.body_original.map asciiLower) w = true ∨
           (∃ t ∈ inp.body_tokens, t.map asciiLower = w) ∨
           strContains (inp.summary_original.map asciiLower) w = true ∨
           (∃ t ∈ inp.summary_tokens, t.map asciiLower = w)))) ∧
    (∀ inp : ProfInput, ((combined_profanity inp).2).Nodup) ∧
    check_profanity none = (false, []) ∧
    check_profanity (some []) = (false, []) ∧
    check_profanity_in_tokens [] = (false, []) := by
  refine ⟨fun inp => ?_, fun inp w => ?_, fun inp => ?_, rfl, rfl, rfl⟩
  · simp only [combined_profanity, Bool.or_eq_true, check_profanity_verdict,
      check_profanity_in_tokens_verdict, Option.getD_some]
  · simp only [combined_profanity, List.mem_dedup, List.mem_append,
      check_profanity_found, check_profanity_in_tokens_found, Option.getD_some]
    aesop
  · simp only [combined_profanity]
    exact List.nodup_dedup _

/-- C8 counterexample: the claim bounds the output token count of
`preprocess_text` as a whole by the input's whitespace-separated word
count.  On the NLTK path, `word_tokenize` splits the single word
"cannot" into "can" and "not", and the source's fallback stop-word list
contains neither, so the one-word input "cannot" yields two output
tokens. -/
theorem c8_count_bound_counterexample :
    (preprocess_text_nltk word_tokenize_cannot id stop_words
      (some (str "cannot"))).length = 2 ∧
    (pysplit (str "cannot")).length = 1 ∧
    ¬((preprocess_text_nltk word_tokenize_cannot id stop_words
        (some (str "cannot"))).length ≤ (pysplit (str "cannot")).length) := by
  refine ⟨rfl, rfl, by decide⟩

/-- C8 (amended): `preprocess_text` is total on both paths, with empty
output on missing, empty, or letter-free input.  On the fallback path
every emitted token has length greater than 2 and is outside the
stop-word set, and the output token count is at most the input's
whitespace-separated word count.  On the NLTK path the drop rule
applies to the pre-lemmatization tokenizer tokens (every output token
is the lemmatization of a tokenizer token of length greater than 2
outside the stop-word set), and the output count is at most the number
of tokenizer tokens — which yields the raw word-count bound for the
code's own whitespace-split fallback tokenizer, but not for
`word_tokenize` (see the counterexample). -/
theorem c8_preprocess_total :
    preprocess_text none = [] ∧
    preprocess_text (some []) = [] ∧
    (∀ s : Str, pysplit ((s.map asciiLower).filter keepChar) = [] →
        preprocess_text (some s) = []) ∧
    (∀ x : Option Str,
        (preprocess_text x).all
          (fun t => decide (2 < t.length) && decide (t ∉ stop_words)) = true) ∧
    (∀ s : Str, (preprocess_text (some s)).length ≤ (pysplit s).length) ∧
    (∀ (tokenize : Str → List Str) (lemmatize : Str → Str) (stopSet : List Str),
        preprocess_text_nltk tokenize lemmatize stopSet none = [] ∧
        preprocess_text_nltk tokenize lemmatize stopSet (some []) = []) ∧
    (∀ (tokenize : Str → List Str) (lemmatize : Str → Str) (stopSet : List Str)
        (s t : Str),
        t ∈ preprocess_text_nltk tokenize lemmatize stopSet (some s) →
        ∃ u ∈ tokenize ((s.map asciiLower).filter keepChar),
          lemmatize u = t ∧ 2 < u.length ∧ u ∉ stopSet) ∧
    (∀ (tokenize : Str → List Str) (lemmatize : Str → Str) (stopSet : List Str)
        (s : Str),
        (preprocess_text_nltk tokenize lemmatize stopSet (some s)).length ≤
          (tokenize ((s.map asciiLower).filter keepChar)).length) ∧
    (∀ (lemmatize : Str → Str) (stopSet : List Str) (s : Str),
        (preprocess_text_nltk pysplit lemmatize stopSet (some s)).length ≤
          (pysplit s).length) := by
  refine ⟨rfl, rfl, fun s h => ?_, fun x => ?_, preprocess_text_length_le,
    fun tokenize lemmatize stopSet => ⟨rfl, rfl⟩,
    fun tokenize lemmatize stopSet s t ht => preprocess_text_nltk_mem ht,
    fun tokenize lemmatize stopSet s =>
      preprocess_text_nltk_length_le tokenize lemmatize stopSet s,
    fun lemmatize stopSet s =>
      preprocess_text_nltk_pysplit_length_le lemmatize stopSet s⟩
  · by_cases hs : s = []
    · simp [preprocess_text, hs]
    · simp [preprocess_text, if_neg hs, h]
  · rw [List.all_eq_true]
    intro t ht
    obtain ⟨-, -, h1, h2⟩ := preprocess_text_token_props ht
    simp [h1, h2]

/-- Witness for C8: purely numeric/punctuation input strips to nothing
and is processed to the empty token list without failure, and a
concrete NLTK-path token is traced back to its filtered tokenizer
token. -/
theorem c8_preprocess_total_witness :
    preprocess_text (some (str "12 34 !!")) = [] ∧
    (∃ u ∈ pysplit (((str "Great Value").map asciiLower).filter keepChar),
        id u = str "great" ∧ 2 < u.length ∧ u ∉ stop_words) :=
  ⟨c8_preprocess_total.2.2.1 (str "12 34 !!") (by rfl),
   c8_preprocess_total.2.2.2.2.2.2.1 pysplit id stop_words (str "Great Value")
     (str "great") (by decide)⟩

/-- C10: every token the fallback path emits is a nonempty string of
lowercase ASCII letters of length at least 3 outside the stop-word set;
on the NLTK path, tokens are nonempty lowercase words provided the
external tokenizer emits nonempty non-whitespace runs of its input and
the external lemmatizer preserves nonempty lowercase words. -/
theorem c10_token_invariants :
    (∀ (x : Option Str) (t : Str), t ∈ preprocess_text x →
        t ≠ [] ∧ (∀ c ∈ t, isLowerAZ c = true) ∧ 2 < t.length ∧ t ∉ stop_words) ∧
    (∀ (tokenize : Str → List Str) (lemmatize : Str → Str) (stopSet : List Str)
        (x : Option Str),
        (∀ s : Str, ∀ u ∈ tokenize s, u ≠ [] ∧ ∀ c ∈ u, c ∈ s ∧ isPySpace c = false) →
        (∀ u : Str, u ≠ [] → (∀ c ∈ u, isLowerAZ c = true) →
            lemmatize u ≠ [] ∧ ∀ c ∈ lemmatize u, isLowerAZ c = true) →
        ∀ t ∈ preprocess_text_nltk tokenize lemmatize stopSet x,
          t ≠ [] ∧ ∀ c ∈ t, isLowerAZ c = true) :=
  ⟨fun _ _ ht => preprocess_text_token_props ht,
   fun tokenize lemmatize stopSet x htok hlem =>
     preprocess_text_nltk_token_props tokenize lemmatize stopSet x htok hlem⟩

/-- Witness for C10: concrete instantiations of both conjuncts, with the
NLTK path instantiated by the whitespace tokenizer and the identity
lemmatizer (the source's own exception fallbacks). -/
theorem c10_token_invariants_witness :
    (str "great" ≠ [] ∧ (∀ c ∈ str "great", isLowerAZ c = true) ∧
      2 < (str "great").length ∧ str "great" ∉ stop_words) ∧
    (∀ t ∈ preprocess_text_nltk pysplit id stop_words (some (str "Great Day")),
        t ≠ [] ∧ ∀ c ∈ t, isLowerAZ c = true) := by
  constructor
  · exact c10_token_invariants.1 (some (str "great value")) (str "great") (by decide)
  · exact c10_token_invariants.2 pysplit id stop_words (some (str "Great Day"))
      (fun _ _ hu => pysplit_token_chars hu)
      (fun _ h1 h2 => ⟨h1, h2⟩)

/-! Sentiment-scorer helper lemmas. -/

/-- Confidence bounds for the rating-only branch with 0.7 confidences. -/
theorem rating_sentiment_for_empty_text_bounds (r : Option ℚ) :
    0 ≤ (rating_sentiment_for_empty_text r).2 ∧
      (rating_sentiment_for_empty_text r).2 ≤ 1 := by
  match r with
  | none => exact ⟨le_refl 0, by norm_num [rating_sentiment_for_empty_text]⟩
  | some q =>
    by_cases h1 : 4 ≤ q
    · simp only [rating_sentiment_for_empty_text, if_pos h1]
      norm_num
    · by_cases h2 : q ≤ 2 <;>
        simp only [rating_sentiment_for_empty_text, if_neg h1, h2, if_true, if_false] <;>
        norm_num

/-- Confidence bounds for the rating-only branch with 0.6 confidences. -/
theorem rating_sentiment_for_no_words_bounds (r : Option ℚ) :
    0 ≤ (rating_sentiment_for_no_words r).2 ∧
      (rating_sentiment_for_no_words r).2 ≤ 1 := by
  match r with
  | none => exact ⟨le_refl 0, by norm_num [rating_sentiment_for_no_words]⟩
  | some q =>
    by_cases h1 : 4 ≤ q
    · simp only [rating_sentiment_for_no_words, if_pos h1]
      norm_num
    · by_cases h2 : q ≤ 2 <;>
        simp only [rating_sentiment_for_no_words, if_neg h1, h2, if_true, if_false] <;>
        norm_num

/-- The word-count confidence always lies in `[0, 1]`. -/
theorem basic_word_confidence_bounds (p n w : ℕ) (rating : Option ℚ) :
    0 ≤ basic_word_confidence p n w rating ∧ basic_word_confidence p n w rating ≤ 1 := by
  have hbase : 0 ≤ (if w = 0 then (0 : ℚ) else min (((p + n : ℕ) : ℚ) / (w : ℚ)) 1) ∧
      (if w = 0 then (0 : ℚ) else min (((p + n : ℕ) : ℚ) / (w : ℚ)) 1) ≤ 1 := by
    split
    · exact ⟨le_refl 0, by norm_num⟩
    · constructor
      · exact le_min (div_nonneg (by positivity) (by positivity)) (by norm_num)
      · exact min_le_right _ _
  unfold basic_word_confidence
  match rating with
  | none => exact hbase
  | some q =>
    refine ⟨le_trans hbase.1 (le_max_left _ _), max_le hbase.2 (by norm_num)⟩

/-- The fallback scorer's confidence always lies in `[0, 1]`. -/
theorem analyze_sentiment_basic_conf_bounds (text : Option Str) (rating : Option ℚ) :
    0 ≤ (analyze_sentiment_basic text rating).2 ∧
      (analyze_sentiment_basic text rating).2 ≤ 1 := by
  match text with
  | none => exact rating_sentiment_for_empty_text_bounds rating
  | some s =>
    by_cases hs : s = []
    · simp only [analyze_sentiment_basic, if_pos hs]
      exact rating_sentiment_for_empty_text_bounds rating
    · simp only [analyze_sentiment_basic, if_neg hs]
      split
      · exact rating_sentiment_for_no_words_bounds rating
      · split
        · exact basic_word_confidence_bounds _ _ _ rating
        · split
          · exact basic_word_confidence_bounds _ _ _ rating
          · exact basic_word_confidence_bounds _ _ _ rating

/-- The TextBlob scorer's confidence lies in `[0, 1]` whenever the
library's polarity lies in `[-1, 1]`. -/
theorem analyze_sentiment_textblob_conf_bounds (p : ℚ) (h1 : -1 ≤ p) (h2 : p ≤ 1) :
    0 ≤ (analyze_sentiment_textblob p).2 ∧ (analyze_sentiment_textblob p).2 ≤ 1 := by
  have habs : |p| ≤ 1 := abs_le.mpr ⟨h1, h2⟩
  have habs0 : 0 ≤ |p| := abs_nonneg p
  unfold analyze_sentiment_textblob
  split
  · exact ⟨habs0, habs⟩
  · split
    · exact ⟨habs0, habs⟩
    · constructor
      · show (0 : ℚ) ≤ 1 - |p|
        linarith
      · show (1 : ℚ) - |p| ≤ 1
        linarith

/-- The availability-dispatching scorer's confidence lies in `[0, 1]`
whenever the polarity lies in `[-1, 1]`. -/
theorem analyze_sentiment_tb_conf_bounds (p : ℚ) (text : Option Str) (rating : Option ℚ)
    (h1 : -1 ≤ p) (h2 : p ≤ 1) :
    0 ≤ (analyze_sentiment_tb p text rating).2 ∧
      (analyze_sentiment_tb p text rating).2 ≤ 1 := by
  have htb := analyze_sentiment_textblob_conf_bounds p h1 h2
  have hb := analyze_sentiment_basic_conf_bounds text rating
  simp only [analyze_sentiment_tb]
  split
  · exact ⟨le_trans htb.1 (le_max_left _ _), max_le htb.2 hb.2⟩
  · exact htb

/-- The three per-label accumulated weights sum to the total weight. -/
theorem sentiment_score_of_sum (bs ss : Sentiment) (rw sw rating rweight : ℚ) :
    sentiment_score_of bs rw ss sw rating rweight .positive +
      sentiment_score_of bs rw ss sw rating rweight .negative +
      sentiment_score_of bs rw ss sw rating rweight .neutral = rw + sw + rweight := by
  unfold sentiment_score_of
  generalize rating_label rating = rl
  cases bs <;> cases ss <;> cases rl <;> simp <;> ring

/-- Each per-label accumulated weight is nonnegative when the component
weights are. -/
theorem sentiment_score_of_nonneg (bs ss : Sentiment) (wb ws wr : ℚ)
    (h1 : 0 ≤ wb) (h2 : 0 ≤ ws) (h3 : 0 ≤ wr) (rating : ℚ) (lab : Sentiment) :
    0 ≤ sentiment_score_of bs wb ss ws rating wr lab := by
  unfold sentiment_score_of
  refine add_nonneg (add_nonneg ?_ ?_) ?_ <;>
    split <;> first | assumption | exact le_refl 0

/-- The combined confidence lies in `[0, 1]` whenever the per-field
confidences are nonnegative. -/
theorem combine_sentiment_conf_bounds (bodyLen summaryLen : ℕ) (bs : Sentiment)
    (bc : ℚ) (ss : Sentiment) (sc : ℚ) (rating : ℚ)
    (hbc : 0 ≤ bc) (hsc : 0 ≤ sc) :
    0 ≤ (combine_sentiment bodyLen summaryLen bs bc ss sc rating).2 ∧
      (combine_sentiment bodyLen summaryLen bs bc ss sc rating).2 ≤ 1 := by
  have hrw : 0 ≤ (bodyLen : ℚ) * bc := mul_nonneg (Nat.cast_nonneg _) hbc
  have hsw : 0 ≤ (summaryLen : ℚ) * sc := mul_nonneg (Nat.cast_nonneg _) hsc
  have hrt : (0 : ℚ) ≤ 3/10 := by norm_num
  have hsum := sentiment_score_of_sum bs ss ((bodyLen : ℚ) * bc) ((summaryLen : ℚ) * sc)
    rating (3/10)
  have hp := sentiment_score_of_nonneg bs ss ((bodyLen : ℚ) * bc) ((summaryLen : ℚ) * sc)
    (3/10) hrw hsw hrt rating Sentiment.positive
  have hn := sentiment_score_of_nonneg bs ss ((bodyLen : ℚ) * bc) ((summaryLen : ℚ) * sc)
    (3/10) hrw hsw hrt rating Sentiment.negative
  have hm := sentiment_score_of_nonneg bs ss ((bodyLen : ℚ) * bc) ((summaryLen : ℚ) * sc)
    (3/10) hrw hsw hrt rating Sentiment.neutral
  simp only [combine_sentiment]
  split
  case isTrue htot =>
    split <;> split <;>
      exact ⟨div_nonneg (by assumption) (le_of_lt htot),
        (div_le_one htot).mpr (by linarith)⟩
  case isFalse =>
    exact ⟨le_refl 0, by norm_num⟩

/-- End-to-end confidence bound for the handler in basic mode. -/
theorem sentiment_lambda_final_conf_bounds (body summary : Option Str) (rating : ℚ) :
    0 ≤ (sentiment_lambda_final body summary rating).2 ∧
      (sentiment_lambda_final body summary rating).2 ≤ 1 := by
  have hb := analyze_sentiment_basic_conf_bounds body (some rating)
  have hs := analyze_sentiment_basic_conf_bounds summary (some rating)
  simp only [sentiment_lambda_final]
  exact combine_sentiment_conf_bounds _ _ _ _ _ _ _ hb.1 hs.1

/-- Every sentiment label is one of the three constructors. -/
theorem sentiment_trichotomy (s : Sentiment) :
    s = .positive ∨ s = .negative ∨ s = .neutral := by
  cases s <;> simp

/-- C9: every scorer returns a label in {positive, negative, neutral}
and a confidence in `[0, 1]`: the word-list scorer unconditionally, the
TextBlob scorer and its dispatching wrapper whenever the external
polarity lies in `[-1, 1]`, the weighted combination whenever the
per-field confidences are nonnegative, and the end-to-end handler
composition unconditionally. -/
theorem c9_sentiment_bounds :
    (∀ (text : Option Str) (rating : Option ℚ),
      ((analyze_sentiment_basic text rating).1 = .positive ∨
       (analyze_sentiment_basic text rating).1 = .negative ∨
       (analyze_sentiment_basic text rating).1 = .neutral) ∧
      0 ≤ (analyze_sentiment_basic text rating).2 ∧
      (analyze_sentiment_basic text rating).2 ≤ 1) ∧
    (∀ p : ℚ, -1 ≤ p → p ≤ 1 →
      0 ≤ (analyze_sentiment_textblob p).2 ∧ (analyze_sentiment_textblob p).2 ≤ 1) ∧
    (∀ (p : ℚ) (text : Option Str) (rating : Option ℚ), -1 ≤ p → p ≤ 1 →
      0 ≤ (analyze_sentiment_tb p text rating).2 ∧
        (analyze_sentiment_tb p text rating).2 ≤ 1) ∧
    (∀ (bodyLen summaryLen : ℕ) (bs : Sentiment) (bc : ℚ) (ss : Sentiment) (sc : ℚ)
        (rating : ℚ), 0 ≤ bc → 0 ≤ sc →
      0 ≤ (combine_sentiment bodyLen summaryLen bs bc ss sc rating).2 ∧
        (combine_sentiment bodyLen summaryLen bs bc ss sc rating).2 ≤ 1) ∧
    (∀ (body summary : Option Str) (rating : ℚ),
      ((sentiment_lambda_final body summary rating).1 = .positive ∨
       (sentiment_lambda_final body summary rating).1 = .negative ∨
       (sentiment_lambda_final body summary rating).1 = .neutral) ∧
      0 ≤ (sentiment_lambda_final body summary rating).2 ∧
      (sentiment_lambda_final body summary rating).2 ≤ 1) := by
  refine ⟨fun text rating => ⟨sentiment_trichotomy _, analyze_sentiment_basic_conf_bounds text rating⟩,
    fun p h1 h2 => analyze_sentiment_textblob_conf_bounds p h1 h2,
    fun p text rating h1 h2 => analyze_sentiment_tb_conf_bounds p text rating h1 h2,
    fun bodyLen summaryLen bs bc ss sc rating hbc hsc =>
      combine_sentiment_conf_bounds bodyLen summaryLen bs bc ss sc rating hbc hsc,
    fun body summary rating =>
      ⟨sentiment_trichotomy _, sentiment_lambda_final_conf_bounds body summary rating⟩⟩

/-- Witness for C9: the hypothesis-bearing conjuncts instantiated at a
concrete polarity, scorer inputs, and weights. -/
theorem c9_sentiment_bounds_witness :
    (0 ≤ (analyze_sentiment_textblob (1/2)).2 ∧
      (analyze_sentiment_textblob (1/2)).2 ≤ 1) ∧
    (0 ≤ (analyze_sentiment_tb (1/2) none none).2 ∧
      (analyze_sentiment_tb (1/2) none none).2 ≤ 1) ∧
    (0 ≤ (combine_sentiment 10 5 .positive (1/2) .neutral (1/3) 4).2 ∧
      (combine_sentiment 10 5 .positive (1/2) .neutral (1/3) 4).2 ≤ 1) :=
  ⟨c9_sentiment_bounds.2.1 (1/2) (by norm_num) (by norm_num),
   c9_sentiment_bounds.2.2.1 (1/2) none none (by norm_num) (by norm_num),
   c9_sentiment_bounds.2.2.2.1 10 5 .positive (1/2) .neutral (1/3) 4
     (by norm_num) (by norm_num)⟩

end ReviewAnalysis
